import Mathlib

/-!
Shallow embedding of the orientation-mapping core of
`src/scripts/RH/test_head_rotation_sender.py` (quaternion-to-Euler
conversion, axis remapping with range protection, yaw-reset
bookkeeping, and the per-tick sender loop), together with theorems
settling the specification claims about it.

Python floats are modelled as real numbers; `np.arctan2` and `np.clip`
are modelled by `atan2` and `clip` below following their numpy
semantics.
-/

namespace HeadRotation

open Real
open scoped Classical

/-- A 3-component vector of reals, modelling the numpy arrays of three
floats used for Euler angles and mapped angles. -/
structure Vec3 where
  x : ℝ
  y : ℝ
  z : ℝ

/-- A quaternion given as components `[qx, qy, qz, qw]`. -/
structure Quat where
  x : ℝ
  y : ℝ
  z : ℝ
  w : ℝ

/-- Model of `np.clip(a, lo, hi)`: `min(max(a, lo), hi)`. -/
noncomputable def clip (a lo hi : ℝ) : ℝ := min (max a lo) hi

/-- Model of the two-argument inverse tangent `np.arctan2(y, x)`. -/
noncomputable def atan2 (y x : ℝ) : ℝ :=
  if 0 < x then Real.arctan (y / x)
  else if x < 0 then
    (if 0 ≤ y then Real.arctan (y / x) + Real.pi
     else Real.arctan (y / x) - Real.pi)
  else
    (if 0 < y then Real.pi / 2
     else if y < 0 then -(Real.pi / 2)
     else 0)

/-- Embedding of `quaternion_to_euler` (lines 52-75): convert a
quaternion `[qx, qy, qz, qw]` to Euler angles `[roll, pitch, yaw]` in
radians, with an atan2-based formula on each axis and a safety clamp
of the pitch sine to `[-1, 1]`. -/
noncomputable def quaternion_to_euler (q : Quat) : Vec3 :=
  let t0 := 2 * (q.w * q.x + q.y * q.z)
  let t1 := 1 - 2 * (q.x * q.x + q.y * q.y)
  let roll_x := atan2 t0 t1
  let t2 := 2 * (q.w * q.y - q.z * q.x)
  let t2c := clip t2 (-1) 1
  let pitch_y := atan2 t2c (Real.sqrt (1 - t2c * t2c))
  let t3 := 2 * (q.w * q.z + q.x * q.y)
  let t4 := 1 - 2 * (q.y * q.y + q.z * q.z)
  let yaw_z := atan2 t3 t4
  ⟨roll_x, pitch_y, yaw_z⟩

/-- The mutable module-level state of the sender script (lines 28-30):
the stored last valid mapped angles, the x2 reset offset, and the raw
x2 value captured by the most recent mapping call. -/
structure MapperState where
  last_valid : Vec3
  x2_offset : ℝ
  current_x2_raw : ℝ

/-- The initial mapper state: `last_valid_angles = [0,0,0]`,
`x2_offset = 0`, `current_x2_raw = 0`. -/
def initialState : MapperState := ⟨⟨0, 0, 0⟩, 0, 0⟩

/-- Conversion factor `rad_to_deg = 180 / pi` (line 94). -/
noncomputable def rad_to_deg : ℝ := 180 / Real.pi

/-- The axis remapping of lines 97-99: `x2 = -y1`, `y2 = x1`,
`z2 = -z1`, each converted from radians to degrees. -/
noncomputable def remap (euler_rad : Vec3) : Vec3 :=
  ⟨-euler_rad.y * rad_to_deg, euler_rad.x * rad_to_deg, -euler_rad.z * rad_to_deg⟩

/-- The candidate degree vector checked against the limits: the
remapped vector with the offset subtracted from its first component
only (line 103). -/
noncomputable def candidate (euler_rad : Vec3) (st : MapperState) : Vec3 :=
  ⟨(remap euler_rad).x - st.x2_offset, (remap euler_rad).y, (remap euler_rad).z⟩

/-- The out-of-limits test of lines 111-119, with the limits
`x2 ∈ [-90, 90]`, `y2 ∈ [-100, 100]`, `z2 ∈ [-35, 35]`. -/
def outOfRange (v : Vec3) : Prop :=
  v.x < -90 ∨ v.x > 90 ∨ v.y < -100 ∨ v.y > 100 ∨ v.z < -35 ∨ v.z > 35

/-- Embedding of `map_and_clamp_euler` (lines 78-125), returning the
updated state together with the returned vector. The raw x2 value is
recorded in the state before the range check; if any angle exceeds its
limits the stored last valid angles are returned unchanged, otherwise
the candidate vector is stored and returned. -/
noncomputable def map_and_clamp_euler (euler_rad : Vec3) (st : MapperState) :
    MapperState × Vec3 :=
  let c := candidate euler_rad st
  let st1 : MapperState := { st with current_x2_raw := (remap euler_rad).x }
  if outOfRange c then
    (st1, st1.last_valid)
  else
    ({ st1 with last_valid := c }, c)

/-- Embedding of `reset_x2` (lines 34-40): store the current raw x2
value as the offset and unfreeze the stored vector by zeroing its
first component. -/
def reset_x2 (st : MapperState) : MapperState :=
  { st with
    x2_offset := st.current_x2_raw
    last_valid := ⟨0, st.last_valid.y, st.last_valid.z⟩ }

/-- The status string printed by the main loop: `OK` when a headset
pose is available, `NO HEADSET` otherwise. -/
inductive Status where
  | OK : Status
  | NO_HEADSET : Status
  deriving DecidableEq

/-- The sender loop's state: the mapper globals plus the
`last_trigger_state` flag used for edge detection (line 31). -/
structure LoopState where
  mapper : MapperState
  last_trigger : Bool

/-- One iteration of the sender's main loop (lines 145-185),
parameterized over the quaternion conversion and mapping functions so
that non-invocation on a missing sample is expressible: when the pose
is present it is converted and mapped; when it is `None` the zero
vector is emitted with status `NO HEADSET` and the mapper state is not
touched by the pose-handling path. Afterwards a rising edge of the
reset button triggers `reset_x2`, and the trigger flag is updated. -/
def tickWith (q2e : Quat → Vec3) (mc : Vec3 → MapperState → MapperState × Vec3)
    (pose : Option Quat) (button : Bool) (st : LoopState) :
    LoopState × Vec3 × Status :=
  let step :=
    match pose with
    | some q =>
      let out := mc (q2e q) st.mapper
      (out.1, out.2, Status.OK)
    | none => (st.mapper, (⟨0, 0, 0⟩ : Vec3), Status.NO_HEADSET)
  let mapper2 := if button && !st.last_trigger then reset_x2 step.1 else step.1
  (⟨mapper2, button⟩, step.2.1, step.2.2)

/-- One iteration of the sender's main loop with the script's actual
conversion and mapping functions. -/
noncomputable def tick (pose : Option Quat) (button : Bool) (st : LoopState) :
    LoopState × Vec3 × Status :=
  tickWith quaternion_to_euler map_and_clamp_euler pose button st

/-- The mapper states reachable from the initial state under any
interleaving of mapping calls and resets. -/
inductive Reachable : MapperState → Prop where
  | init : Reachable initialState
  | map (euler_rad : Vec3) {st : MapperState} :
      Reachable st → Reachable (map_and_clamp_euler euler_rad st).1
  | reset {st : MapperState} : Reachable st → Reachable (reset_x2 st)

/-- Componentwise membership in the configured ranges. -/
def inRange (v : Vec3) : Prop :=
  -90 ≤ v.x ∧ v.x ≤ 90 ∧ -100 ≤ v.y ∧ v.y ≤ 100 ∧ -35 ≤ v.z ∧ v.z ≤ 35

/-- Modelled from the spec: the repository's code implements only the
FREEZE branch of the RangePolicy; the CLAMP branch (each axis
independently clamped to its own configured `[min, max]` degree range)
is missing from the source, so it is modelled here from the spec's
words, with the per-axis bounds passed as the per-deployment
configuration. -/
noncomputable def clampAxes (lo1 hi1 lo2 hi2 lo3 hi3 : ℝ) (v : Vec3) : Vec3 :=
  ⟨clip v.x lo1 hi1, clip v.y lo2 hi2, clip v.z lo3 hi3⟩

/-- Test-input constructor: an Euler vector in radians whose remapped
degree vector is exactly `⟨a, b, c⟩`. -/
noncomputable def mkEuler (a b c : ℝ) : Vec3 :=
  ⟨b * Real.pi / 180, -a * Real.pi / 180, -c * Real.pi / 180⟩

theorem remap_mkEuler (a b c : ℝ) : remap (mkEuler a b c) = ⟨a, b, c⟩ := by
  unfold remap mkEuler rad_to_deg
  have hpi := Real.pi_ne_zero
  simp only [Vec3.mk.injEq]
  refine ⟨?_, ?_, ?_⟩ <;> field_simp

theorem clip_of_high {a lo hi : ℝ} (h : hi < a) : clip a lo hi = hi := by
  unfold clip
  exact min_eq_right (le_trans h.le (le_max_left a lo))

theorem clip_of_low {a lo hi : ℝ} (h : a < lo) (hlh : lo ≤ hi) : clip a lo hi = lo := by
  unfold clip
  rw [max_eq_right h.le]
  exact min_eq_left hlh

theorem clip_of_mem {a lo hi : ℝ} (h1 : lo ≤ a) (h2 : a ≤ hi) : clip a lo hi = a := by
  unfold clip
  rw [max_eq_left h1]
  exact min_eq_left h2

theorem clip_mem (a : ℝ) {lo hi : ℝ} (h : lo ≤ hi) :
    lo ≤ clip a lo hi ∧ clip a lo hi ≤ hi := by
  unfold clip
  exact ⟨le_min (le_max_right a lo) h, min_le_right _ _⟩

theorem atan2_bounds_of_nonneg (y : ℝ) {x : ℝ} (hx : 0 ≤ x) :
    -(Real.pi / 2) ≤ atan2 y x ∧ atan2 y x ≤ Real.pi / 2 := by
  unfold atan2
  rcases hx.lt_or_eq with hpos | hzero
  · rw [if_pos hpos]
    exact ⟨(Real.neg_pi_div_two_lt_arctan _).le, (Real.arctan_lt_pi_div_two _).le⟩
  · rw [if_neg (by rw [← hzero]; exact lt_irrefl 0),
      if_neg (by rw [← hzero]; exact lt_irrefl 0)]
    have hpi := Real.pi_pos
    by_cases hy : 0 < y
    · rw [if_pos hy]
      constructor <;> linarith
    · rw [if_neg hy]
      by_cases hy2 : y < 0
      · rw [if_pos hy2]
        constructor <;> linarith
      · rw [if_neg hy2]
        constructor <;> linarith

theorem map_freeze {e : Vec3} {st : MapperState} (h : outOfRange (candidate e st)) :
    map_and_clamp_euler e st =
      ({ st with current_x2_raw := (remap e).x }, st.last_valid) := by
  unfold map_and_clamp_euler
  rw [if_pos h]

theorem map_accept {e : Vec3} {st : MapperState} (h : ¬ outOfRange (candidate e st)) :
    map_and_clamp_euler e st =
      ({ st with current_x2_raw := (remap e).x, last_valid := candidate e st },
        candidate e st) := by
  unfold map_and_clamp_euler
  rw [if_neg h]

theorem map_preserves_offset (e : Vec3) (st : MapperState) :
    (map_and_clamp_euler e st).1.x2_offset = st.x2_offset := by
  by_cases h : outOfRange (candidate e st)
  · rw [map_freeze h]
  · rw [map_accept h]

theorem not_outOfRange_iff (v : Vec3) : ¬ outOfRange v ↔ inRange v := by
  unfold outOfRange inRange
  push_neg
  constructor
  · rintro ⟨h1, h2, h3, h4, h5, h6⟩
    exact ⟨h1, h2, h3, h4, h5, h6⟩
  · rintro ⟨h1, h2, h3, h4, h5, h6⟩
    exact ⟨h1, h2, h3, h4, h5, h6⟩

/-- C10: in both the freeze branch and the accept branch,
`map_and_clamp_euler` returns exactly the vector held in `last_valid`
immediately after the call: the output and the stored last-known-good
state never disagree at the end of a mapping call. -/
theorem C10_output_equals_last_valid (e : Vec3) (st : MapperState) :
    (map_and_clamp_euler e st).2 = (map_and_clamp_euler e st).1.last_valid := by
  by_cases h : outOfRange (candidate e st)
  · rw [map_freeze h]
  · rw [map_accept h]

/-- C1: under the freeze behavior of `map_and_clamp_euler`, if any of
the three remapped/offset axis values lies outside its configured
range (axis1 in `[-90, 90]`, axis2 in `[-100, 100]`, axis3 in
`[-35, 35]`) the whole stored `last_valid` vector is returned and
`last_valid` is unchanged (not a per-axis freeze); otherwise the new
three-axis vector is returned and `last_valid` is updated to it. -/
theorem C1_freeze_all_or_nothing (e : Vec3) (st : MapperState) :
    (outOfRange (candidate e st) →
      (map_and_clamp_euler e st).2 = st.last_valid ∧
      (map_and_clamp_euler e st).1.last_valid = st.last_valid) ∧
    (¬ outOfRange (candidate e st) →
      (map_and_clamp_euler e st).2 = candidate e st ∧
      (map_and_clamp_euler e st).1.last_valid = candidate e st) := by
  constructor
  · intro h
    rw [map_freeze h]
    exact ⟨rfl, rfl⟩
  · intro h
    rw [map_accept h]
    exact ⟨rfl, rfl⟩

theorem candidate_mkEuler (a b c : ℝ) (st : MapperState) :
    candidate (mkEuler a b c) st = ⟨a - st.x2_offset, b, c⟩ := by
  unfold candidate
  rw [remap_mkEuler]

/-- Witness for C1: with stored vector `⟨1, 2, 3⟩` and offset `0`, an
input remapping to `⟨200, 0, 0⟩` (axis1 out of range) returns
`⟨1, 2, 3⟩` on all three axes, while an input remapping to
`⟨10, 5, 5⟩` is accepted and returned. -/
theorem C1_freeze_all_or_nothing_witness :
    (map_and_clamp_euler (mkEuler 200 0 0) ⟨⟨1, 2, 3⟩, 0, 0⟩).2 = ⟨1, 2, 3⟩ ∧
    (map_and_clamp_euler (mkEuler 10 5 5) ⟨⟨1, 2, 3⟩, 0, 0⟩).2 = ⟨10, 5, 5⟩ := by
  have hc1 : candidate (mkEuler 200 0 0) ⟨⟨1, 2, 3⟩, 0, 0⟩ = ⟨200, 0, 0⟩ := by
    rw [candidate_mkEuler]
    norm_num
  have hc2 : candidate (mkEuler 10 5 5) ⟨⟨1, 2, 3⟩, 0, 0⟩ = ⟨10, 5, 5⟩ := by
    rw [candidate_mkEuler]
    norm_num
  have h1 : outOfRange (candidate (mkEuler 200 0 0) ⟨⟨1, 2, 3⟩, 0, 0⟩) := by
    rw [hc1]
    unfold outOfRange
    norm_num
  have h2 : ¬ outOfRange (candidate (mkEuler 10 5 5) ⟨⟨1, 2, 3⟩, 0, 0⟩) := by
    rw [hc2]
    unfold outOfRange
    norm_num
  refine ⟨((C1_freeze_all_or_nothing (mkEuler 200 0 0) ⟨⟨1, 2, 3⟩, 0, 0⟩).1 h1).1, ?_⟩
  rw [((C1_freeze_all_or_nothing (mkEuler 10 5 5) ⟨⟨1, 2, 3⟩, 0, 0⟩).2 h2).1, hc2]

/-- C8: across every sequence of mapping calls without an intervening
reset the offset component of the state is unchanged; a reset sets the
offset to the captured raw axis-1 value and nothing else sets it; and
the offset is applied only to axis 1 of the checked vector: the axis-2
and axis-3 components of the candidate vector are the plain remapped
values whatever the offset is. -/
theorem C8_offset_only_via_reset_and_axis1 :
    (∀ (st : MapperState) (es : List Vec3),
      (es.foldl (fun s e => (map_and_clamp_euler e s).1) st).x2_offset =
        st.x2_offset) ∧
    (∀ st : MapperState, (reset_x2 st).x2_offset = st.current_x2_raw) ∧
    (∀ (st : MapperState) (e : Vec3) (o : ℝ),
      (candidate e { st with x2_offset := o }).y = (remap e).y ∧
      (candidate e { st with x2_offset := o }).z = (remap e).z) := by
  refine ⟨?_, fun _ => rfl, fun _ _ _ => ⟨rfl, rfl⟩⟩
  intro st es
  induction es generalizing st with
  | nil => rfl
  | cons e es ih =>
    rw [List.foldl_cons, ih]
    exact map_preserves_offset e st

/-- Counterexample to C2: the code applies no modular wraparound after
the offset subtraction. With offset `0` and stored vector `⟨0, 0, 0⟩`,
an input whose pre-normalization axis1 value is `181` degrees is
frozen out by the `[-90, 90]` range check and the returned axis1 value
is `0`, not `-179`; likewise an axis1 value of `179` does not pass
through as `179`. -/
theorem C2_counterexample :
    (map_and_clamp_euler (mkEuler 181 0 0) initialState).2.x = 0 ∧
    (map_and_clamp_euler (mkEuler 179 0 0) initialState).2.x = 0 ∧
    (0 : ℝ) ≠ -179 ∧ (0 : ℝ) ≠ 179 := by
  have h1 : outOfRange (candidate (mkEuler 181 0 0) initialState) := by
    rw [candidate_mkEuler]
    unfold initialState outOfRange
    norm_num
  have h2 : outOfRange (candidate (mkEuler 179 0 0) initialState) := by
    rw [candidate_mkEuler]
    unfold initialState outOfRange
    norm_num
  rw [map_freeze h1, map_freeze h2]
  norm_num [initialState]

/-- C2 amended: after the offset subtraction, `axis1` is not
normalized at all: whenever the offset-subtracted axis1 value lies
outside `[-90, 90]` (as both `179` and `181` do), the call takes the
freeze branch and returns the stored `last_valid` vector; and whenever
the candidate vector is in range, the returned axis1 value is exactly
the offset-subtracted remapped value, with no modular adjustment. -/
theorem C2_no_wraparound (e : Vec3) (st : MapperState) :
    (((candidate e st).x < -90 ∨ (candidate e st).x > 90) →
      (map_and_clamp_euler e st).2 = st.last_valid) ∧
    (¬ outOfRange (candidate e st) →
      (map_and_clamp_euler e st).2.x = (remap e).x - st.x2_offset) := by
  constructor
  · intro h
    have hout : outOfRange (candidate e st) := by
      unfold outOfRange
      rcases h with h | h
      · exact Or.inl h
      · exact Or.inr (Or.inl h)
    rw [map_freeze hout]
  · intro h
    rw [map_accept h]
    rfl

/-- Witness for C2 amended: with offset `0`, an axis1 value of `181`
freezes the output at the stored `⟨0, 0, 0⟩`, and an in-range axis1
value of `10` is returned as exactly `10 - 0`. -/
theorem C2_no_wraparound_witness :
    (map_and_clamp_euler (mkEuler 181 0 0) initialState).2 = ⟨0, 0, 0⟩ ∧
    (map_and_clamp_euler (mkEuler 10 0 0) initialState).2.x = 10 := by
  have hx : (candidate (mkEuler 181 0 0) initialState).x = 181 := by
    rw [candidate_mkEuler]
    norm_num [initialState]
  have h10 : ¬ outOfRange (candidate (mkEuler 10 0 0) initialState) := by
    rw [candidate_mkEuler]
    unfold initialState outOfRange
    norm_num
  constructor
  · exact (C2_no_wraparound (mkEuler 181 0 0) initialState).1
      (Or.inr (by rw [hx]; norm_num))
  · rw [(C2_no_wraparound (mkEuler 10 0 0) initialState).2 h10, remap_mkEuler]
    norm_num [initialState]

/-- Counterexample to C5: after an accepted mapping call followed by a
reset, `last_valid` no longer equals the most recent mapped-angle
vector that satisfied the range policy. From the initial state, an
input remapping to `⟨10, 5, 5⟩` is accepted (so `⟨10, 5, 5⟩` is the
most recent policy-satisfying vector), yet after `reset_x2` the stored
vector is `⟨0, 5, 5⟩ ≠ ⟨10, 5, 5⟩`. -/
theorem C5_counterexample :
    (map_and_clamp_euler (mkEuler 10 5 5) initialState).2 = ⟨10, 5, 5⟩ ∧
    ¬ outOfRange (⟨10, 5, 5⟩ : Vec3) ∧
    (reset_x2 (map_and_clamp_euler (mkEuler 10 5 5) initialState).1).last_valid =
      ⟨0, 5, 5⟩ ∧
    (⟨0, 5, 5⟩ : Vec3) ≠ ⟨10, 5, 5⟩ := by
  have hc : candidate (mkEuler 10 5 5) initialState = ⟨10, 5, 5⟩ := by
    rw [candidate_mkEuler]
    norm_num [initialState]
  have h : ¬ outOfRange (candidate (mkEuler 10 5 5) initialState) := by
    rw [hc]
    unfold outOfRange
    norm_num
  refine ⟨by rw [map_accept h, hc], by unfold outOfRange; norm_num, ?_, ?_⟩
  · rw [map_accept h]
    unfold reset_x2
    rw [hc]
  · intro h0
    have hx0 := congrArg Vec3.x h0
    norm_num at hx0

/-- C5 amended: over every state reachable from the initial state
under any interleaving of mapping calls and resets, every component of
`last_valid` stays within its configured range (`last_valid` is never
set to an out-of-range value); an accepting mapping call stores
exactly the accepted vector, but a reset rewrites the stored axis-1
component to `0` while keeping the other two axes, so after a reset
`last_valid` need not equal the most recent accepted vector. -/
theorem C5_last_valid_always_in_range {st : MapperState} (h : Reachable st) :
    inRange st.last_valid := by
  induction h with
  | init =>
    unfold initialState inRange
    norm_num
  | map e _ ih =>
    rename_i st' _
    by_cases hc : outOfRange (candidate e st')
    · rw [map_freeze hc]
      exact ih
    · rw [map_accept hc]
      exact (not_outOfRange_iff _).mp hc
  | reset _ ih =>
    unfold reset_x2 inRange
    refine ⟨by norm_num, by norm_num, ?_, ?_, ?_, ?_⟩
    · exact ih.2.2.1
    · exact ih.2.2.2.1
    · exact ih.2.2.2.2.1
    · exact ih.2.2.2.2.2

/-- Witness for C5 amended: the state reached by one accepted mapping
call followed by a reset has its stored vector in range. -/
theorem C5_last_valid_always_in_range_witness :
    inRange (reset_x2 (map_and_clamp_euler (mkEuler 10 5 5) initialState).1).last_valid :=
  C5_last_valid_always_in_range
    (Reachable.reset (Reachable.map (mkEuler 10 5 5) Reachable.init))

/-- C6: after a reset (which captures the current pre-offset axis1
value as the offset and zeroes the stored axis-1 component), the next
mapping call on the same raw axis1 value returns an axis1 output of
exactly `0`, whatever the pre-reset offset was and whichever branch
(accept or freeze) that call takes. -/
theorem C6_reset_zeroes_axis1 (st : MapperState) (e : Vec3)
    (h : (remap e).x = st.current_x2_raw) :
    (map_and_clamp_euler e (reset_x2 st)).2.x = 0 := by
  by_cases hc : outOfRange (candidate e (reset_x2 st))
  · rw [map_freeze hc]
    rfl
  · rw [map_accept hc]
    show (remap e).x - (reset_x2 st).x2_offset = 0
    rw [h]
    exact sub_self _

/-- Witness for C6: with pre-reset offset `123`, captured raw value
`50` and stored vector `⟨7, 3, 2⟩`, mapping the same raw axis1 value
`50` right after the reset returns axis1 output `0`. -/
theorem C6_reset_zeroes_axis1_witness :
    (map_and_clamp_euler (mkEuler 50 0 0) (reset_x2 ⟨⟨7, 3, 2⟩, 123, 50⟩)).2.x = 0 :=
  C6_reset_zeroes_axis1 ⟨⟨7, 3, 2⟩, 123, 50⟩ (mkEuler 50 0 0)
    (by rw [remap_mkEuler])

theorem tick_none_no_trigger_mapper (q2e : Quat → Vec3)
    (mc : Vec3 → MapperState → MapperState × Vec3) (st : LoopState) :
    (tickWith q2e mc none false st).1.mapper = st.mapper := by
  unfold tickWith
  simp

/-- Counterexample to C4: on a tick where the pose source yields
`none`, a rising edge of the reset button still fires `reset_x2`, so
the mapper state is not left unchanged. With offset `0`, captured raw
value `50` and stored vector `⟨20, 0, 0⟩`, a no-sample tick with the
button newly pressed changes the offset from `0` to `50` and the
stored vector from `⟨20, 0, 0⟩` to `⟨0, 0, 0⟩`. -/
theorem C4_counterexample :
    (tick none true ⟨⟨⟨20, 0, 0⟩, 0, 50⟩, false⟩).1.mapper.x2_offset = 50 ∧
    (tick none true ⟨⟨⟨20, 0, 0⟩, 0, 50⟩, false⟩).1.mapper.last_valid = ⟨0, 0, 0⟩ ∧
    (50 : ℝ) ≠ 0 ∧ (⟨0, 0, 0⟩ : Vec3) ≠ ⟨20, 0, 0⟩ := by
  refine ⟨?_, ?_, by norm_num, ?_⟩
  · simp [tick, tickWith, reset_x2]
  · simp [tick, tickWith, reset_x2]
  · intro h0
    have hx0 := congrArg Vec3.x h0
    norm_num at hx0

/-- C4 amended: on every tick where the pose source yields `none` and
the reset trigger does not fire (no rising edge of the button), the
loop emits exactly the zero vector with the no-headset status and
leaves the whole mapper state (offset, `last_valid` and raw value)
unchanged, without invoking the quaternion conversion or the mapping
function (the result is the same for every such function); iterating
no-sample ticks with the button up any number of times still leaves
the mapper state unchanged. -/
theorem C4_no_sample_tick :
    (∀ (q2e : Quat → Vec3) (mc : Vec3 → MapperState → MapperState × Vec3)
        (st : LoopState) (b : Bool),
      ¬(b = true ∧ st.last_trigger = false) →
      tickWith q2e mc none b st = (⟨st.mapper, b⟩, ⟨0, 0, 0⟩, Status.NO_HEADSET)) ∧
    (∀ (q2e : Quat → Vec3) (mc : Vec3 → MapperState → MapperState × Vec3)
        (st : LoopState) (n : ℕ),
      ((fun s => (tickWith q2e mc none false s).1)^[n] st).mapper = st.mapper) := by
  constructor
  · intro q2e mc st b h
    have hb : (b && !st.last_trigger) = false := by
      cases b
      · rfl
      · cases hlt : st.last_trigger
        · exact absurd ⟨rfl, hlt⟩ h
        · simp
    unfold tickWith
    rw [hb]
    rfl
  · intro q2e mc st n
    induction n generalizing st with
    | zero => rfl
    | succ n ih =>
      rw [Function.iterate_succ_apply]
      rw [ih]
      exact tick_none_no_trigger_mapper q2e mc st

/-- Witness for C4 amended: five consecutive no-sample ticks with the
button up leave the mapper state `⟨⟨8, 2, 1⟩, 4, 9⟩` unchanged and a
single such tick emits `⟨0, 0, 0⟩` with status `NO HEADSET`. -/
theorem C4_no_sample_tick_witness :
    tick none false ⟨⟨⟨8, 2, 1⟩, 4, 9⟩, false⟩ =
      (⟨⟨⟨8, 2, 1⟩, 4, 9⟩, false⟩, ⟨0, 0, 0⟩, Status.NO_HEADSET) ∧
    ((fun s => (tick none false s).1)^[5]
        ⟨⟨⟨8, 2, 1⟩, 4, 9⟩, false⟩).mapper = ⟨⟨8, 2, 1⟩, 4, 9⟩ :=
  ⟨C4_no_sample_tick.1 quaternion_to_euler map_and_clamp_euler
      ⟨⟨⟨8, 2, 1⟩, 4, 9⟩, false⟩ false (by simp),
    C4_no_sample_tick.2 quaternion_to_euler map_and_clamp_euler
      ⟨⟨⟨8, 2, 1⟩, 4, 9⟩, false⟩ 5⟩

/-- C9: `quaternion_to_euler` returns exactly the same three angles on
a quaternion and on its componentwise negation (double-cover
invariance); every intermediate term is a quadratic form in the
components, so the equality is exact, not merely within tolerance. -/
theorem C9_double_cover (q : Quat) :
    quaternion_to_euler ⟨-q.x, -q.y, -q.z, -q.w⟩ = quaternion_to_euler q := by
  unfold quaternion_to_euler
  dsimp only
  have h0 : (2 : ℝ) * (-q.w * -q.x + -q.y * -q.z) = 2 * (q.w * q.x + q.y * q.z) := by
    ring
  have h1 : (1 : ℝ) - 2 * (-q.x * -q.x + -q.y * -q.y) =
      1 - 2 * (q.x * q.x + q.y * q.y) := by
    ring
  have h2 : (2 : ℝ) * (-q.w * -q.y - -q.z * -q.x) = 2 * (q.w * q.y - q.z * q.x) := by
    ring
  have h3 : (2 : ℝ) * (-q.w * -q.z + -q.x * -q.y) = 2 * (q.w * q.z + q.x * q.y) := by
    ring
  have h4 : (1 : ℝ) - 2 * (-q.y * -q.y + -q.z * -q.z) =
      1 - 2 * (q.y * q.y + q.z * q.z) := by
    ring
  rw [h0, h1, h2, h3, h4]

/-- C7: under the spec-modelled CLAMP policy, each axis is clamped
independently to its own configured `[min, max]` range: a value above
its upper bound comes out exactly at the upper bound, a value below
its lower bound exactly at the lower bound, and an in-range value on
any axis passes through unchanged. -/
theorem C7_clamp_per_axis (lo1 hi1 lo2 hi2 lo3 hi3 : ℝ) (v : Vec3) :
    (hi1 < v.x → (clampAxes lo1 hi1 lo2 hi2 lo3 hi3 v).x = hi1) ∧
    (v.x < lo1 → lo1 ≤ hi1 → (clampAxes lo1 hi1 lo2 hi2 lo3 hi3 v).x = lo1) ∧
    (lo1 ≤ v.x → v.x ≤ hi1 → (clampAxes lo1 hi1 lo2 hi2 lo3 hi3 v).x = v.x) ∧
    (hi2 < v.y → (clampAxes lo1 hi1 lo2 hi2 lo3 hi3 v).y = hi2) ∧
    (v.y < lo2 → lo2 ≤ hi2 → (clampAxes lo1 hi1 lo2 hi2 lo3 hi3 v).y = lo2) ∧
    (lo2 ≤ v.y → v.y ≤ hi2 → (clampAxes lo1 hi1 lo2 hi2 lo3 hi3 v).y = v.y) ∧
    (hi3 < v.z → (clampAxes lo1 hi1 lo2 hi2 lo3 hi3 v).z = hi3) ∧
    (v.z < lo3 → lo3 ≤ hi3 → (clampAxes lo1 hi1 lo2 hi2 lo3 hi3 v).z = lo3) ∧
    (lo3 ≤ v.z → v.z ≤ hi3 → (clampAxes lo1 hi1 lo2 hi2 lo3 hi3 v).z = v.z) :=
  ⟨fun h => clip_of_high h, fun h hl => clip_of_low h hl,
    fun h1 h2 => clip_of_mem h1 h2,
    fun h => clip_of_high h, fun h hl => clip_of_low h hl,
    fun h1 h2 => clip_of_mem h1 h2,
    fun h => clip_of_high h, fun h hl => clip_of_low h hl,
    fun h1 h2 => clip_of_mem h1 h2⟩

/-- Witness for C7: with the reference bounds and input
`⟨200, 5, -50⟩`, the first axis saturates at its upper bound `90`, the
second passes through as `5`, and the third saturates at its lower
bound `-35`. -/
theorem C7_clamp_per_axis_witness :
    (clampAxes (-90) 90 (-100) 100 (-35) 35 ⟨200, 5, -50⟩).x = 90 ∧
    (clampAxes (-90) 90 (-100) 100 (-35) 35 ⟨200, 5, -50⟩).y = 5 ∧
    (clampAxes (-90) 90 (-100) 100 (-35) 35 ⟨200, 5, -50⟩).z = -35 := by
  obtain ⟨hxh, _, _, _, _, hym, _, hzl, _⟩ :=
    C7_clamp_per_axis (-90) 90 (-100) 100 (-35) 35 ⟨200, 5, -50⟩
  exact ⟨hxh (by norm_num), hym (by norm_num) (by norm_num),
    hzl (by norm_num) (by norm_num)⟩

theorem pitch_eq (q : Quat) :
    (quaternion_to_euler q).y =
      atan2 (clip (2 * (q.w * q.y - q.z * q.x)) (-1) 1)
        (Real.sqrt (1 - clip (2 * (q.w * q.y - q.z * q.x)) (-1) 1 *
          clip (2 * (q.w * q.y - q.z * q.x)) (-1) 1)) := rfl

theorem atan2_sqrt_arcsin {t : ℝ} (h1 : -1 ≤ t) (h2 : t ≤ 1) :
    atan2 t (Real.sqrt (1 - t * t)) = Real.arcsin t := by
  rcases h2.lt_or_eq with h2' | h2'
  · rcases h1.lt_or_eq with h1' | h1'
    · have hpos : 0 < 1 - t * t := by nlinarith
      have hs : 0 < Real.sqrt (1 - t * t) := Real.sqrt_pos.mpr hpos
      unfold atan2
      rw [if_pos hs, show (1 : ℝ) - t * t = 1 - t ^ 2 by ring]
      exact (Real.arcsin_eq_arctan ⟨h1', h2'⟩).symm
    · rw [← h1']
      rw [show (1 : ℝ) - -1 * -1 = 0 by norm_num, Real.sqrt_zero]
      unfold atan2
      norm_num [Real.arcsin_neg_one]
  · rw [h2']
    rw [show (1 : ℝ) - 1 * 1 = 0 by norm_num, Real.sqrt_zero]
    unfold atan2
    norm_num [Real.arcsin_one]

/-- Counterexample to C3 (negation of the full-range part of the
claim): the pitch returned by `quaternion_to_euler` can never leave
`[-pi/2, pi/2]`, because its atan2 second argument is the nonnegative
square root; so there is no quaternion on which the returned pitch
spans beyond the asin-style range. -/
theorem C3_counterexample :
    ¬ ∃ q : Quat, Real.pi / 2 < (quaternion_to_euler q).y ∨
      (quaternion_to_euler q).y < -(Real.pi / 2) := by
  rintro ⟨q, hq⟩
  have hb := atan2_bounds_of_nonneg
    (clip (2 * (q.w * q.y - q.z * q.x)) (-1) 1)
    (Real.sqrt_nonneg (1 - clip (2 * (q.w * q.y - q.z * q.x)) (-1) 1 *
      clip (2 * (q.w * q.y - q.z * q.x)) (-1) 1))
  rw [← pitch_eq q] at hb
  rcases hq with h | h
  · linarith [hb.2]
  · linarith [hb.1]

/-- C3 amended: `quaternion_to_euler` does compute every angle with
the two-argument inverse tangent, but for pitch the second argument is
the nonnegative square root `sqrt (1 - t2 * t2)`, so the pitch formula
coincides exactly with `arcsin t2` and the returned pitch remains
restricted to `[-pi/2, pi/2]`; the atan2 form changes only the
numerical behavior near the poles, not the asin-style range. -/
theorem C3_pitch_equals_arcsin (q : Quat) :
    (quaternion_to_euler q).y =
      Real.arcsin (clip (2 * (q.w * q.y - q.z * q.x)) (-1) 1) ∧
    -(Real.pi / 2) ≤ (quaternion_to_euler q).y ∧
    (quaternion_to_euler q).y ≤ Real.pi / 2 := by
  have hm := clip_mem (2 * (q.w * q.y - q.z * q.x)) (show (-1 : ℝ) ≤ 1 by norm_num)
  have he := atan2_sqrt_arcsin hm.1 hm.2
  refine ⟨?_, ?_, ?_⟩
  · rw [pitch_eq q, he]
  · rw [pitch_eq q, he]
    exact Real.neg_pi_div_two_le_arcsin _
  · rw [pitch_eq q, he]
    exact Real.arcsin_le_pi_div_two _

end HeadRotation
